import Mathlib

/-!
Verification of the VCF parsing core of `src/main.py` (function `main`,
lines 267-447, plus `add_contact` and `reset_field_counts`).

Strings are modelled as `List Char`; the Python string operations used by
the source (`startswith`, `split`, slicing with negative indices,
`replace`, substring membership) are embedded as total structural
functions with Python semantics.  Operations that can raise in Python
(`dict[...]` on a missing key, `dict.pop`, out-of-range indexing) are
modelled with `Option`, `none` standing for a raised exception.
-/

set_option maxHeartbeats 4000000
set_option maxRecDepth 4000

abbrev Str := List Char

def strL (s : String) : Str := s.toList

/-- Python slice `s[a:b]` with negative-index and clamping semantics. -/
def pySlice (s : Str) (a b : Int) : Str :=
  let n : Int := Int.ofNat s.length
  let lo := (if a < 0 then a + n else a).toNat
  let hi := (if b < 0 then b + n else b).toNat
  (s.take hi).drop lo

/-- Python slice `s[a:]`. -/
def pySliceFrom (s : Str) (a : Int) : Str := pySlice s a (Int.ofNat s.length)

/-- Python slice `s[:b]`. -/
def pySliceTo (s : Str) (b : Int) : Str := pySlice s 0 b

/-- Python `s.split(sep)` for a single-character separator. -/
def splitChar (sep : Char) : Str → List Str
  | [] => [[]]
  | c :: t =>
    if c = sep then [] :: splitChar sep t
    else
      match splitChar sep t with
      | [] => [[c]]
      | h :: r => (c :: h) :: r

/-- Scanning worker for `pySplitLast`: left-to-right non-overlapping
matches of `sep`; `best` is the suffix after the last match so far. -/
def afterLastFuel (sep : Str) : Nat → Str → Str → Str
  | _, best, [] => best
  | 0, best, _ => best
  | fuel+1, best, c :: t =>
    if sep.isPrefixOf (c :: t) then
      afterLastFuel sep fuel ((c :: t).drop sep.length) ((c :: t).drop sep.length)
    else afterLastFuel sep fuel best t

/-- Python `s.split(sep)[-1]` for a non-empty separator: the suffix after
the last (left-to-right, non-overlapping) occurrence of `sep`, or `s`
itself when `sep` does not occur. -/
def pySplitLast (sep s : Str) : Str :=
  if sep = [] then s else afterLastFuel sep (s.length + 1) s s

/-- Scanning worker for `pyreplace`. -/
def pyreplaceFuel (old new : Str) : Nat → Str → Str
  | _, [] => []
  | 0, s => s
  | fuel+1, c :: t =>
    if old.isPrefixOf (c :: t) then new ++ pyreplaceFuel old new fuel ((c :: t).drop old.length)
    else c :: pyreplaceFuel old new fuel t

/-- Python `s.replace(old, new)` for non-empty `old` (all uses in the
source have non-empty `old`). -/
def pyreplace (s old new : Str) : Str :=
  if old = [] then s else pyreplaceFuel old new (s.length + 1) s

/-- Python `sub in s` (substring membership). -/
def containsSub (sub : Str) : Str → Bool
  | [] => sub.isEmpty
  | c :: t => sub.isPrefixOf (c :: t) || containsSub sub t

/-- Decimal digits of `n` (most significant first), fuel-driven. -/
def natDigits : Nat → Nat → Str
  | 0, _ => []
  | fuel+1, n => if n < 10 then [Nat.digitChar n] else natDigits fuel (n / 10) ++ [Nat.digitChar (n % 10)]

/-- Python `str(n)` for a natural number. -/
def natToStr (n : Nat) : Str := natDigits (n + 1) n

/-- Python `d[k]` as an `Option` (a `dict` keeps one entry per key;
lookup of a missing key raises, modelled by `none` at the use sites). -/
def dget {κ α : Type} [DecidableEq κ] : List (κ × α) → κ → Option α
  | [], _ => none
  | (a, b) :: t, k => if a = k then some b else dget t k

/-- Python `d[k] = v`: overwrite in place if `k` is present, else append
(insertion order semantics of a Python `dict`). -/
def dset {κ α : Type} [DecidableEq κ] : List (κ × α) → κ → α → List (κ × α)
  | [], k, v => [(k, v)]
  | (a, b) :: t, k, v => if a = k then (k, v) :: t else (a, b) :: dset t k v

/-- Python `d.pop(k)`: the removed value and the remaining dict, `none`
when `k` is absent (a raised `KeyError`). -/
def dpop {κ α : Type} [DecidableEq κ] : List (κ × α) → κ → Option (α × List (κ × α))
  | [], _ => none
  | (a, b) :: t, k =>
    if a = k then some (b, t)
    else
      match dpop t k with
      | none => none
      | some (v, r) => some (v, (a, b) :: r)

abbrev Dict := List (Str × Str)

/-- Modelled from the spec: the three raw-key to canonical-name tables
(standard, custom, social-profile fields) are configuration data loaded
from JSON files that are not part of `src/`; the parser in `src/main.py`
only consumes them through key lists and `['value']` lookups.  All
definitions below are parametric in this registry. -/
structure FieldEnv where
  std : List (Str × Str)
  cust : List (Str × Str)
  soc : List (Str × Str)

/-- The mutable state of the reading loop of `main` (lines 253-447):
`contacts_dict`, `contact_id`, the per-table occurrence counters, the
`listening_to_data` flag, `key_previous`, `value_previous`,
`last_symbol` and the in-progress `contact_dict`. -/
structure PState where
  contacts : List (Nat × Dict)
  contact_id : Nat
  stdCount : List (Str × Nat)
  custCount : List (Str × Nat)
  socCount : List (Str × Nat)
  listening : Bool
  key_previous : Str
  value_previous : Str
  last_symbol : Str
  contact : Dict
deriving DecidableEq

/-- Function `reset_field_counts` (lines 187-193): every raw key's count becomes 0. -/
def zeroCounts (t : List (Str × Str)) : List (Str × Nat) :=
  t.map (fun p => (p.1, 0))

/-- State before the first line (lines 231-263; `contact_dict` is unbound
in the source until the first record-start line and is modelled as `[]`,
which is unobservable because every access is guarded by `listening`). -/
def initState (env : FieldEnv) : PState :=
  { contacts := [], contact_id := 0,
    stdCount := zeroCounts env.std, custCount := zeroCounts env.cust,
    socCount := zeroCounts env.soc,
    listening := false,
    key_previous := strL "N:", value_previous := strL "Name",
    last_symbol := [], contact := [] }

/-- Function `add_contact` (lines 196-203). -/
def addContact (st : PState) : PState :=
  { st with contacts := dset st.contacts st.contact_id st.contact,
            contact_id := st.contact_id + 1,
            listening := false }

/-- Record-start handling (lines 270-276). -/
def startRecord (env : FieldEnv) (st : PState) : PState :=
  { st with listening := true, contact := [],
            key_previous := strL "N:",
            stdCount := zeroCounts env.std,
            custCount := zeroCounts env.cust,
            socCount := zeroCounts env.soc }

/-- The duplicated-field disambiguation used by all three field branches
(lines 342-346, 392-396, 408-412): on the second occurrence the bare
entry is popped and archived under `_1`, and from the second occurrence
on the value is stored under `name_count`. -/
def disamb (contact : Dict) (value : Str) (count : Nat) : Option (Dict × Str) :=
  if count > 1 then
    if count = 2 then
      match dpop contact value with
      | none => none
      | some (old, c1) => some (dset c1 (value ++ strL "_1") old, value ++ '_' :: natToStr count)
    else some (contact, value ++ '_' :: natToStr count)
  else some (contact, value)

/-- The common cleanup applied to note text, both on the primary line
(lines 367-371) and on continuation lines (lines 438-442). -/
def noteClean (s : Str) : Str :=
  pyreplace (pyreplace (pyreplace (pyreplace s (strL "\xa0") []) (strL "\u200b") []) (strL "\\n") (strL "\n")) (strL "\\") []

/-- Guard of the standard-field branch (line 335). -/
def stdGuard (env : FieldEnv) (line : Str) : Bool :=
  env.std.any (fun p => p.1.isPrefixOf line)

/-- Guard of the custom-field branch (line 384). -/
def custGuard (env : FieldEnv) (line : Str) : Bool :=
  containsSub (strL "X-CUSTOM") line && env.cust.any (fun p => containsSub p.1 line)

/-- Guard of the social-profile branch (line 403). -/
def socGuard (env : FieldEnv) (line : Str) : Bool :=
  containsSub (strL "X-SOCIALPROFILE") line && env.soc.any (fun p => containsSub p.1 line)

/-- Key-part of the continuation guard (lines 422-424). -/
def contKeyGuard (env : FieldEnv) (kp : Str) : Bool :=
  kp == strL "ADR" || kp == strL "NOTE" || kp == strL "PHOTO" || kp == strL "CATEGORIES" || (env.soc.map Prod.fst).contains kp

/-- Guard of line 443 (address / photo / tags / social continuation). -/
def adrLikeGuard (env : FieldEnv) (kp : Str) : Bool :=
  kp == strL "ADR" || kp == strL "PHOTO" || kp == strL "CATEGORIES" || (env.soc.map Prod.fst).contains kp

/-- Key extraction `key = re.split(':|;', line)[0]` (line 338). -/
def stdKeyOf (line : Str) : Str :=
  line.takeWhile (fun c => c != ':' && c != ';')

/-- Birthday reformatting for key `BDAY` (lines 374-378). -/
def bdayDecode (data : Str) : Str :=
  if (strL "--").isPrefixOf data then
    pySlice data 2 4 ++ strL "-" ++ pySliceFrom data (-2)
  else
    pySliceTo data (-4) ++ strL "-" ++ pySlice data (-4) (-2) ++ strL "-" ++ pySliceFrom data (-2)

/-- Contact-name initialisation from the record-start line
(lines 319-332).  The four `names.split(';')[i]` indexings run before
any store; an index out of range raises (`none`). -/
def nameBlock (st : PState) (line : Str) : Option PState :=
  if (strL "N:").isPrefixOf line then
    let names := pySplitLast (strL ":") line
    let parts := splitChar ';' names
    match parts.get? 0, parts.get? 1, parts.get? 2, parts.get? 3 with
    | some lastName, some firstName, some m1, some m2 =>
      let c0 := st.contact
      let c1 := if lastName.length > 0 then dset c0 (strL "Last Name") lastName else c0
      let c2 := if firstName.length > 0 then dset c1 (strL "First Name") firstName else c1
      let c3 := if m1.length > 0 then dset c2 (strL "Middle Name 1") m1 else c2
      let c4 := if m2.length > 0 then dset c3 (strL "Middle Name 2") m2 else c3
      some { st with contact := c4 }
    | _, _, _, _ => none
  else some st

/-- Built-in field branch (lines 335-381). -/
def stdBlock (env : FieldEnv) (st : PState) (line : Str) : Option PState :=
  if stdGuard env line then
    let key := stdKeyOf line
    match dget env.std key with
    | none => none
    | some value =>
      match dget st.stdCount key with
      | none => none
      | some c0 =>
        let count := c0 + 1
        let stdCount := dset st.stdCount key count
        match disamb st.contact value count with
        | none => none
        | some (contact1, value1) =>
          let data0 := if key = strL "NOTE" then pySplitLast (strL "NOTE:") line else pySplitLast (strL ":") line
          let data1 := if (strL ";;").isPrefixOf data0 then pySliceFrom data0 2 else data0
          let step354 : Option Str :=
            if key ≠ strL "NOTE" then
              match line.head? with
              | none => none
              | some c =>
                some (if c ≠ ' ' then
                        pyreplace (pyreplace (pyreplace (pyreplace data1 (strL "\n") []) (strL "\\") []) (strL ";;") (strL ", ")) (strL ";") (strL ", ")
                      else data1)
            else some data1
          match step354 with
          | none => none
          | some data2 =>
            let data3 := if key = strL "ADR" ∧ (strL ", ").isPrefixOf data2 then pySliceFrom data2 2 else data2
            let noteRes :=
              if key = strL "NOTE" then
                let d1 := if data3.length ≤ 72 ∧ pySliceFrom data3 (-1) = strL "\n" then pySliceTo data3 (-1) else data3
                (noteClean d1, pySliceFrom d1 (-1))
              else (data3, st.last_symbol)
            let data4 := noteRes.1
            let data5 := if key = strL "PHOTO" then pySplitLast (strL ",") data4 else data4
            let data6 := if key = strL "BDAY" then bdayDecode data5 else data5
            some { st with contact := dset contact1 value1 data6,
                           stdCount := stdCount,
                           key_previous := key,
                           value_previous := value1,
                           last_symbol := noteRes.2 }
  else some st

/-- Custom field branch (lines 384-400). -/
def custBlock (env : FieldEnv) (st : PState) (line : Str) : Option PState :=
  if custGuard env line then
    match env.cust.find? (fun p => containsSub p.1 line) with
    | none => none
    | some p =>
      let key := p.1
      match dget env.cust key with
      | none => none
      | some value =>
        match dget st.custCount key with
        | none => none
        | some c0 =>
          let count := c0 + 1
          let custCount := dset st.custCount key count
          match disamb st.contact value count with
          | none => none
          | some (contact1, value1) =>
            let data := pyreplace (pySplitLast (strL "-=+=-") line) (strL "\n") []
            some { st with contact := dset contact1 value1 data,
                           custCount := custCount,
                           key_previous := key,
                           value_previous := value1 }
  else some st

/-- Social-profile field branch (lines 403-418). -/
def socBlock (env : FieldEnv) (st : PState) (line : Str) : Option PState :=
  if socGuard env line then
    match (splitChar ';' line).get? 1 with
    | none => none
    | some seg1 =>
      let key := pyreplace ((splitChar ':' seg1).headD []) (strL "TYPE=") []
      match dget env.soc key with
      | none => none
      | some value =>
        match dget st.socCount key with
        | none => none
        | some c0 =>
          let count := c0 + 1
          let socCount := dset st.socCount key count
          match disamb st.contact value count with
          | none => none
          | some (contact1, value1) =>
            let lastSeg := (splitChar ';' line).getLastD []
            let pref := (splitChar ':' lastSeg).headD [] ++ strL ":"
            let data := pyreplace (pyreplace lastSeg pref []) (strL "\n") []
            some { st with contact := dset contact1 value1 data,
                           socCount := socCount,
                           key_previous := key,
                           value_previous := value1 }
  else some st

/-- Continuation-line branch (lines 422-447). -/
def contBlock (env : FieldEnv) (st : PState) (line : Str) : Option PState :=
  if contKeyGuard env st.key_previous then
    match line.head? with
    | none => none
    | some c =>
      if c = ' ' then
        let noteRes :=
          if st.key_previous = strL "NOTE" then
            let l1 := pySliceFrom line 1
            let l2 := if l1.length ≤ 75 ∧ pySliceFrom l1 (-1) = strL "\n" then pySliceTo l1 (-1) else l1
            let l3 := if st.last_symbol = strL "\\" ∧ pySlice l2 0 2 = strL "n " then strL "\n" ++ pySliceFrom l2 1 else l2
            (noteClean l3, pySliceFrom l3 (-1))
          else (line, st.last_symbol)
        let line1 := noteRes.1
        let line2 := if adrLikeGuard env st.key_previous then pyreplace (pySliceFrom line1 1) (strL "\n") [] else line1
        match dget st.contact st.value_previous with
        | none => none
        | some old =>
          some { st with contact := dset st.contact st.value_previous (old ++ line2),
                         last_symbol := noteRes.2 }
      else some st
  else some st

/-- Record-end handling (lines 278-314).  `Sum.inl` is the Python
`continue` (the line is done), `Sum.inr` is the fall-through that
happens when `logic_op` is neither `&` nor `|`. -/
def endBlock (env : FieldEnv) (tagList : List Str) (op : Str) (st : PState) : Option (Sum PState PState) :=
  if tagList.length > 0 then
    if (dget st.contact (strL "Tags")).isSome = false then
      some (Sum.inl { st with listening := false })
    else
      match dget env.std (strL "CATEGORIES") with
      | none => none
      | some tagValue =>
        match dget st.contact tagValue with
        | none => none
        | some tstr =>
          let contactTags := splitChar ',' tstr
          if op = strL "&" then
            if (tagList.all fun t => contactTags.contains t) = false then
              some (Sum.inl { st with listening := false })
            else some (Sum.inl (addContact st))
          else if op = strL "|" then
            if (tagList.any fun t => contactTags.contains t) = false then
              some (Sum.inl { st with listening := false })
            else some (Sum.inl (addContact st))
          else some (Sum.inr st)
  else some (Sum.inl (addContact st))

/-- The `if listening_to_data:` body (lines 316-447): the five inner
branches run in sequence on the same line. -/
def listenPart (env : FieldEnv) (st : PState) (line : Str) : Option PState :=
  if st.listening then
    match nameBlock st line with
    | none => none
    | some s1 =>
      match stdBlock env s1 line with
      | none => none
      | some s2 =>
        match custBlock env s2 line with
        | none => none
        | some s3 =>
          match socBlock env s3 line with
          | none => none
          | some s4 => contBlock env s4 line
  else some st

/-- One iteration of the reading loop (lines 268-447). -/
def step (env : FieldEnv) (tagList : List Str) (op : Str) (st : PState) (line : Str) : Option PState :=
  let st1 := if (strL "N:").isPrefixOf line then startRecord env st else st
  if (strL "END:").isPrefixOf line && st1.listening then
    match endBlock env tagList op st1 with
    | none => none
    | some (Sum.inl s) => some s
    | some (Sum.inr s) => listenPart env s line
  else listenPart env st1 line

/-- The whole reading loop over the input lines. -/
def runLines (env : FieldEnv) (tagList : List Str) (op : Str) : PState → List Str → Option PState
  | st, [] => some st
  | st, l :: rest =>
    match step env tagList op st l with
    | none => none
    | some st' => runLines env tagList op st' rest

/-- Modelled from the spec: a concrete registry instance.  The JSON
tables are not under `src/`; the raw keys and canonical names here are
the ones the code itself relies on (`ADR`/`Address`, `BDAY`/`Birthday`,
`NOTE`/`Note`, `PHOTO`/`Picture`, `CATEGORIES`/`Tags` are hard-coded at
lines 293, 347-378, 422-424, 559) together with canonical names listed
in `first_columns_list` (lines 482-483) and the `Email` example of line
493. -/
def specEnv : FieldEnv :=
  { std := [(strL "ADR", strL "Address"), (strL "BDAY", strL "Birthday"),
            (strL "CATEGORIES", strL "Tags"), (strL "EMAIL", strL "Email"),
            (strL "NICKNAME", strL "Nickname"), (strL "NOTE", strL "Note"),
            (strL "ORG", strL "Organization"), (strL "PHOTO", strL "Picture"),
            (strL "TEL", strL "Phone"), (strL "TITLE", strL "Profession")],
    cust := [(strL "Gender", strL "Gender"), (strL "Nationality", strL "Nationality")],
    soc := [(strL "twitter", strL "Twitter"), (strL "linkedin", strL "LinkedIn")] }

/-! ### Basic facts about the embedded Python string operations -/

theorem isPrefixOf_append_self (l r : Str) : l.isPrefixOf (l ++ r) = true := by
  induction l with
  | nil => simp [List.isPrefixOf]
  | cons a t ih => simp [List.isPrefixOf, ih]

theorem pySlice_nonneg (s : Str) (a b : Int) (ha : 0 ≤ a) (hb : 0 ≤ b) :
    pySlice s a b = (s.take b.toNat).drop a.toNat := by
  simp only [pySlice, Int.ofNat_eq_coe]
  rw [if_neg (by omega), if_neg (by omega)]

theorem pySliceFrom_neg (s : Str) (k : Int) (hk : k < 0) :
    pySliceFrom s k = s.drop (k + s.length).toNat := by
  simp only [pySliceFrom, pySlice, Int.ofNat_eq_coe]
  rw [if_pos hk, if_neg (by omega)]
  simp [List.take_length]

theorem pySliceTo_neg (s : Str) (k : Int) (hk : k < 0) :
    pySliceTo s k = s.take (k + s.length).toNat := by
  simp only [pySliceTo, pySlice, Int.ofNat_eq_coe]
  rw [if_neg (by omega), if_pos hk]
  simp

theorem pySlice_neg_neg (s : Str) (a b : Int) (ha : a < 0) (hb : b < 0) :
    pySlice s a b = (s.take (b + s.length).toNat).drop (a + s.length).toNat := by
  simp only [pySlice, Int.ofNat_eq_coe]
  rw [if_pos ha, if_pos hb]

/-! ### Claim C5: birthday decoding -/

/-- Claim C5: for a birthday value beginning with two dashes the decoded
output is the two characters after the dashes, a dash, and the final two
characters; otherwise it is all but the last four characters, a dash,
the next two, a dash, and the last two; in particular `--0615` decodes
to `06-15` and `19900615` to `1990-06-15`. -/
theorem C5_birthday_decode (y mm dd : Str) (hm : mm.length = 2) (hd : dd.length = 2) :
    bdayDecode (strL "--" ++ mm ++ dd) = mm ++ strL "-" ++ dd
    ∧ ((strL "--").isPrefixOf (y ++ mm ++ dd) = false →
        bdayDecode (y ++ mm ++ dd) = y ++ strL "-" ++ mm ++ strL "-" ++ dd)
    ∧ bdayDecode (strL "--0615") = strL "06-15"
    ∧ bdayDecode (strL "19900615") = strL "1990-06-15" := by
  have hds : (strL "--").length = 2 := rfl
  refine ⟨?_, ?_, by decide, by decide⟩
  · unfold bdayDecode
    rw [if_pos (by rw [List.append_assoc]; exact isPrefixOf_append_self _ _)]
    have h1 : pySlice ((strL "--" ++ mm) ++ dd) 2 4 = mm := by
      rw [pySlice_nonneg _ _ _ (by omega) (by omega), List.append_assoc]
      show ((['-', '-'] ++ (mm ++ dd)).take 4).drop 2 = mm
      have ht : (mm ++ dd).take 2 = mm := by rw [← hm]; exact List.take_left mm dd
      simp [ht]
    have h2 : pySliceFrom ((strL "--" ++ mm) ++ dd) (-2) = dd := by
      rw [pySliceFrom_neg _ _ (by omega)]
      have he : ((-2 : Int) + (((strL "--" ++ mm) ++ dd).length : Int)).toNat
          = (strL "--" ++ mm).length := by
        simp only [List.length_append, hds, hm, hd]
        omega
      rw [he, List.drop_left]
    rw [h1, h2]
  · intro hnp
    unfold bdayDecode
    rw [if_neg (by rw [hnp]; exact Bool.false_ne_true)]
    have hly : ((y ++ mm) ++ dd).length = y.length + 4 := by
      simp only [List.length_append, hm, hd]
    have h1 : pySliceTo ((y ++ mm) ++ dd) (-4) = y := by
      rw [pySliceTo_neg _ _ (by omega)]
      have he : ((-4 : Int) + (((y ++ mm) ++ dd).length : Int)).toNat = y.length := by
        rw [hly]; omega
      rw [he, List.append_assoc, List.take_left]
    have h2 : pySlice ((y ++ mm) ++ dd) (-4) (-2) = mm := by
      rw [pySlice_neg_neg _ _ _ (by omega) (by omega)]
      have he1 : ((-2 : Int) + (((y ++ mm) ++ dd).length : Int)).toNat = (y ++ mm).length := by
        rw [hly]; simp only [List.length_append, hm]; omega
      have he2 : ((-4 : Int) + (((y ++ mm) ++ dd).length : Int)).toNat = y.length := by
        rw [hly]; omega
      rw [he1, he2, List.take_left, List.drop_left]
    have h3 : pySliceFrom ((y ++ mm) ++ dd) (-2) = dd := by
      rw [pySliceFrom_neg _ _ (by omega)]
      have he : ((-2 : Int) + (((y ++ mm) ++ dd).length : Int)).toNat = (y ++ mm).length := by
        rw [hly]; simp only [List.length_append, hm]; omega
      rw [he, List.drop_left]
    rw [h1, h2, h3]

theorem C5_birthday_decode_witness :
    (strL "06").length = 2 ∧ (strL "15").length = 2 ∧
      bdayDecode (strL "--" ++ strL "06" ++ strL "15") = strL "06" ++ strL "-" ++ strL "15" := by
  exact ⟨by decide, by decide,
    (C5_birthday_decode (strL "1990") (strL "06") (strL "15") (by decide) (by decide)).1⟩

/-! ### Claim C10: record-start name initialisation is not total -/

/-- Claim C10: processing a record-start line fails (a raised
out-of-range indexing error, modelled by `none`) exactly when the text
after the final colon has fewer than four semicolon-separated
segments. -/
theorem C10_name_init_partiality (st : PState) (line : Str)
    (h : (strL "N:").isPrefixOf line = true) :
    nameBlock st line = none ↔ (splitChar ';' (pySplitLast (strL ":") line)).length < 4 := by
  simp only [nameBlock]
  rw [if_pos h]
  generalize splitChar ';' (pySplitLast (strL ":") line) = parts
  rcases h3 : parts.get? 3 with _ | v3
  · have hlen := List.get?_eq_none.mp h3
    rcases h0 : parts.get? 0 with _ | v0 <;>
      rcases h1 : parts.get? 1 with _ | v1 <;>
        rcases h2 : parts.get? 2 with _ | v2 <;>
          simp only [h0, h1, h2, h3] <;> simp <;> omega
  · have hlen : 3 < parts.length := by
      by_contra hc
      rw [List.get?_eq_none.mpr (by omega)] at h3
      exact Option.noConfusion h3
    rw [List.get?_eq_get (show 0 < parts.length by omega),
        List.get?_eq_get (show 1 < parts.length by omega),
        List.get?_eq_get (show 2 < parts.length by omega)]
    simp
    omega

theorem C10_name_init_partiality_witness :
    ((strL "N:").isPrefixOf (strL "N:OnlyName") = true) ∧
      (nameBlock (initState specEnv) (strL "N:OnlyName") = none ↔
        (splitChar ';' (pySplitLast (strL ":") (strL "N:OnlyName"))).length < 4) := by
  exact ⟨by decide, C10_name_init_partiality (initState specEnv) (strL "N:OnlyName") (by decide)⟩

/-! ### Dictionary lemmas -/

theorem dget_eq_none_of_not_mem {κ α : Type} [DecidableEq κ] (l : List (κ × α)) (k : κ)
    (h : k ∉ l.map Prod.fst) : dget l k = none := by
  induction l with
  | nil => rfl
  | cons p t ih =>
    simp only [List.map_cons, List.mem_cons] at h
    push_neg at h
    simp only [dget]
    rw [if_neg (by exact fun hc => h.1 (by rw [hc]))]
    exact ih h.2

theorem dset_fresh {κ α : Type} [DecidableEq κ] (l : List (κ × α)) (k : κ) (v : α)
    (h : dget l k = none) : dset l k v = l ++ [(k, v)] := by
  induction l with
  | nil => rfl
  | cons p t ih =>
    obtain ⟨a, b⟩ := p
    simp only [dget] at h
    simp only [dset]
    by_cases hak : a = k
    · rw [if_pos hak] at h; exact Option.noConfusion h
    · rw [if_neg hak] at h
      rw [if_neg hak, ih h]
      simp

/-! ### Preservation lemmas: only the record-end branch can touch the
contact store or the identifier counter -/

theorem nameBlock_pres {st st' : PState} {line : Str} (h : nameBlock st line = some st') :
    st'.contacts = st.contacts ∧ st'.contact_id = st.contact_id := by
  simp only [nameBlock] at h
  split at h
  · split at h
    · cases h; exact ⟨rfl, rfl⟩
    · exact Option.noConfusion h
  · cases h; exact ⟨rfl, rfl⟩

theorem stdBlock_pres {env : FieldEnv} {st st' : PState} {line : Str}
    (h : stdBlock env st line = some st') :
    st'.contacts = st.contacts ∧ st'.contact_id = st.contact_id := by
  simp only [stdBlock] at h
  split at h
  · split at h
    · exact Option.noConfusion h
    · split at h
      · exact Option.noConfusion h
      · split at h
        · exact Option.noConfusion h
        · split at h
          · exact Option.noConfusion h
          · cases h; exact ⟨rfl, rfl⟩
  · cases h; exact ⟨rfl, rfl⟩

theorem custBlock_pres {env : FieldEnv} {st st' : PState} {line : Str}
    (h : custBlock env st line = some st') :
    st'.contacts = st.contacts ∧ st'.contact_id = st.contact_id := by
  simp only [custBlock] at h
  split at h
  · split at h
    · exact Option.noConfusion h
    · split at h
      · exact Option.noConfusion h
      · split at h
        · exact Option.noConfusion h
        · split at h
          · exact Option.noConfusion h
          · cases h; exact ⟨rfl, rfl⟩
  · cases h; exact ⟨rfl, rfl⟩

theorem socBlock_pres {env : FieldEnv} {st st' : PState} {line : Str}
    (h : socBlock env st line = some st') :
    st'.contacts = st.contacts ∧ st'.contact_id = st.contact_id := by
  simp only [socBlock] at h
  split at h
  · split at h
    · exact Option.noConfusion h
    · split at h
      · exact Option.noConfusion h
      · split at h
        · exact Option.noConfusion h
        · split at h
          · exact Option.noConfusion h
          · cases h; exact ⟨rfl, rfl⟩
  · cases h; exact ⟨rfl, rfl⟩

theorem contBlock_pres {env : FieldEnv} {st st' : PState} {line : Str}
    (h : contBlock env st line = some st') :
    st'.contacts = st.contacts ∧ st'.contact_id = st.contact_id := by
  simp only [contBlock] at h
  split at h
  · split at h
    · exact Option.noConfusion h
    · split at h
      · split at h
        · exact Option.noConfusion h
        · cases h; exact ⟨rfl, rfl⟩
      · cases h; exact ⟨rfl, rfl⟩
  · cases h; exact ⟨rfl, rfl⟩

theorem listenPart_pres {env : FieldEnv} {st st' : PState} {line : Str}
    (h : listenPart env st line = some st') :
    st'.contacts = st.contacts ∧ st'.contact_id = st.contact_id := by
  simp only [listenPart] at h
  split at h
  · split at h
    · exact Option.noConfusion h
    · next s1 h1 =>
      split at h
      · exact Option.noConfusion h
      · next s2 h2 =>
        split at h
        · exact Option.noConfusion h
        · next s3 h3 =>
          split at h
          · exact Option.noConfusion h
          · next s4 h4 =>
            obtain ⟨a1, b1⟩ := nameBlock_pres h1
            obtain ⟨a2, b2⟩ := stdBlock_pres h2
            obtain ⟨a3, b3⟩ := socBlock_pres h4
            obtain ⟨a4, b4⟩ := custBlock_pres h3
            obtain ⟨a5, b5⟩ := contBlock_pres h
            exact ⟨by rw [a5, a3, a4, a2, a1], by rw [b5, b3, b4, b2, b1]⟩
  · cases h; exact ⟨rfl, rfl⟩

theorem endBlock_cases {env : FieldEnv} {L : List Str} {op : Str} {st : PState}
    {r : Sum PState PState} (h : endBlock env L op st = some r) :
    r = Sum.inl (addContact st) ∨ r = Sum.inl { st with listening := false }
      ∨ r = Sum.inr st := by
  simp only [endBlock] at h
  split at h
  · split at h
    · cases h; right; left; rfl
    · split at h
      · exact Option.noConfusion h
      · split at h
        · exact Option.noConfusion h
        · split at h
          · split at h
            · cases h; right; left; rfl
            · cases h; left; rfl
          · split at h
            · split at h
              · cases h; right; left; rfl
              · cases h; left; rfl
            · cases h; right; right; rfl
  · cases h; left; rfl

theorem step_pres_nonEnd {env : FieldEnv} {L : List Str} {op : Str} {st st' : PState}
    {line : Str} (hne : (strL "END:").isPrefixOf line = false)
    (h : step env L op st line = some st') :
    st'.contacts = st.contacts ∧ st'.contact_id = st.contact_id := by
  simp only [step, hne, Bool.false_and, Bool.false_eq_true, if_false] at h
  obtain ⟨a, b⟩ := listenPart_pres h
  rw [a, b]
  split <;> exact ⟨rfl, rfl⟩

/-! ### Claim C7: a record without a tags field is discarded untouched -/

/-- Claim C7: at a record-end line, with a non-empty requested tag set
and no `Tags` entry in the in-progress record, the step only clears the
listening flag: the contact store and the identifier counter are left
unchanged, and the tag filter (the requested operator) plays no role in
the outcome. -/
theorem C7_missing_tags_discard (env : FieldEnv) (L : List Str) (op : Str) (st : PState)
    (line : Str) (hend : (strL "END:").isPrefixOf line = true) (hlst : st.listening = true)
    (hL : L ≠ []) (hTags : dget st.contact (strL "Tags") = none) :
    step env L op st line = some { st with listening := false } := by
  obtain ⟨r, rfl⟩ := List.isPrefixOf_iff_prefix.mp hend
  have hn : (strL "N:").isPrefixOf (strL "END:" ++ r) = false := rfl
  simp only [step, hn, Bool.false_eq_true, if_false]
  rw [isPrefixOf_append_self, hlst]
  simp only [Bool.and_self, if_true]
  simp only [endBlock, hTags]
  rw [if_pos (List.length_pos.mpr hL)]
  simp

theorem C7_missing_tags_discard_witness :
    ((strL "END:").isPrefixOf (strL "END:VCARD\n") = true) ∧
      step specEnv [strL "X"] (strL "|")
          { initState specEnv with listening := true,
                                   contact := [(strL "Last Name", strL "A")] }
          (strL "END:VCARD\n")
        = some { initState specEnv with listening := false,
                                        contact := [(strL "Last Name", strL "A")] } := by
  exact ⟨by decide,
    C7_missing_tags_discard specEnv [strL "X"] (strL "|")
      { initState specEnv with listening := true, contact := [(strL "Last Name", strL "A")] }
      (strL "END:VCARD\n") (by decide) (by decide) (by decide) (by decide)⟩

/-! ### Claim C6: dense identifiers in acceptance order -/

theorem step_denseInv {env : FieldEnv} {L : List Str} {op : Str} {st st' : PState} {line : Str}
    (hmap : st.contacts.map Prod.fst = List.range st.contacts.length)
    (hid : st.contact_id = st.contacts.length)
    (h : step env L op st line = some st') :
    st'.contacts.map Prod.fst = List.range st'.contacts.length
      ∧ st'.contact_id = st'.contacts.length := by
  simp only [step] at h
  set st1 := if (strL "N:").isPrefixOf line then startRecord env st else st with hst1
  have hc1 : st1.contacts = st.contacts ∧ st1.contact_id = st.contact_id := by
    rw [hst1]; split <;> exact ⟨rfl, rfl⟩
  split at h
  · split at h
    · exact Option.noConfusion h
    · next r hr =>
      cases h
      rcases endBlock_cases hr with he | he | he
      · injection he with he
        subst he
        simp only [addContact]
        have hfresh : dget st1.contacts st1.contact_id = none := by
          apply dget_eq_none_of_not_mem
          rw [hc1.1, hmap, hc1.2, hid]
          exact List.not_mem_range_self
        rw [dset_fresh _ _ _ hfresh]
        constructor
        · rw [List.map_append, List.length_append, hc1.1, hmap]
          simp [List.range_succ, hc1.2, hid]
        · simp [hc1.1, hc1.2, hid]
      · injection he with he
        subst he
        exact ⟨by rw [hc1.1]; exact hmap, by rw [hc1.1, hc1.2]; exact hid⟩
      · exact Sum.noConfusion he
    · next r hr =>
      rcases endBlock_cases hr with he | he | he
      · exact Sum.noConfusion he
      · exact Sum.noConfusion he
      · injection he with he
        subst he
        obtain ⟨a, b⟩ := listenPart_pres h
        exact ⟨by rw [a, hc1.1]; exact hmap, by rw [a, b, hc1.1, hc1.2]; exact hid⟩
  · obtain ⟨a, b⟩ := listenPart_pres h
    exact ⟨by rw [a, hc1.1]; exact hmap, by rw [a, b, hc1.1, hc1.2]; exact hid⟩

theorem runLines_denseInv {env : FieldEnv} {L : List Str} {op : Str} (lines : List Str)
    (st st' : PState)
    (hmap : st.contacts.map Prod.fst = List.range st.contacts.length)
    (hid : st.contact_id = st.contacts.length)
    (h : runLines env L op st lines = some st') :
    st'.contacts.map Prod.fst = List.range st'.contacts.length
      ∧ st'.contact_id = st'.contacts.length := by
  induction lines generalizing st with
  | nil => cases h; exact ⟨hmap, hid⟩
  | cons l rest ih =>
    simp only [runLines] at h
    split at h
    · exact Option.noConfusion h
    · next m hm =>
      obtain ⟨hmap', hid'⟩ := step_denseInv hmap hid hm
      exact ih m hmap' hid' h

/-- Claim C6: after any successful run the store's identifiers are
exactly `0, 1, …, n-1` in store order (dense, assigned in acceptance
order), and the identifier counter equals the store size, so only
accepted records ever advanced it. -/
theorem C6_dense_identifiers (env : FieldEnv) (L : List Str) (op : Str) (lines : List Str)
    (st : PState) (h : runLines env L op (initState env) lines = some st) :
    st.contacts.map Prod.fst = List.range st.contacts.length
      ∧ st.contact_id = st.contacts.length := by
  exact runLines_denseInv lines (initState env) st (by rfl) (by rfl) h

def c6wLines : List Str :=
  [strL "N:A;B;;;\n", strL "END:V\n", strL "N:C;D;;;\n", strL "END:V\n"]

def c6wState : PState :=
  { contacts := [(0, [(strL "Last Name", strL "A"), (strL "First Name", strL "B")]),
                 (1, [(strL "Last Name", strL "C"), (strL "First Name", strL "D")])],
    contact_id := 2,
    stdCount := zeroCounts specEnv.std, custCount := zeroCounts specEnv.cust,
    socCount := zeroCounts specEnv.soc,
    listening := false,
    key_previous := strL "N:", value_previous := strL "Name",
    last_symbol := [], contact := [(strL "Last Name", strL "C"), (strL "First Name", strL "D")] }

theorem C6_dense_identifiers_witness :
    runLines specEnv [] (strL "|") (initState specEnv) c6wLines = some c6wState ∧
      (c6wState.contacts.map Prod.fst = List.range c6wState.contacts.length
        ∧ c6wState.contact_id = c6wState.contacts.length) := by
  exact ⟨by decide, C6_dense_identifiers specEnv [] (strL "|") c6wLines c6wState (by decide)⟩

/-! ### Claim C8: an unterminated trailing record is discarded -/

theorem runLines_append_eq (env : FieldEnv) (L : List Str) (op : Str) (a b : List Str)
    (st : PState) :
    runLines env L op st (a ++ b)
      = match runLines env L op st a with
        | none => none
        | some m => runLines env L op m b := by
  induction a generalizing st with
  | nil => rfl
  | cons l rest ih =>
    simp only [List.cons_append, runLines]
    split <;> simp [ih]

theorem runLines_nonEnd_pres {env : FieldEnv} {L : List Str} {op : Str} (extra : List Str)
    (st st' : PState) (hextra : ∀ l ∈ extra, (strL "END:").isPrefixOf l = false)
    (h : runLines env L op st extra = some st') :
    st'.contacts = st.contacts ∧ st'.contact_id = st.contact_id := by
  induction extra generalizing st with
  | nil => cases h; exact ⟨rfl, rfl⟩
  | cons l rest ih =>
    simp only [runLines] at h
    split at h
    · exact Option.noConfusion h
    · next m hm =>
      obtain ⟨a1, b1⟩ := step_pres_nonEnd (hextra l (by simp)) hm
      obtain ⟨a2, b2⟩ := ih m (fun x hx => hextra x (by simp [hx])) h
      exact ⟨by rw [a2, a1], by rw [b2, b1]⟩

/-- Claim C8: if the input ends while a record is still open, the
in-progress record is discarded, not emitted: appending any trailing
lines none of which is a record-end marker leaves the contact store and
the identifier counter exactly as they were after the terminated
records (and the run still succeeds on the prefix). -/
theorem C8_unterminated_record_discarded (env : FieldEnv) (L : List Str) (op : Str)
    (lines extra : List Str) (st' : PState)
    (hextra : ∀ l ∈ extra, (strL "END:").isPrefixOf l = false)
    (h : runLines env L op (initState env) (lines ++ extra) = some st') :
    (runLines env L op (initState env) lines).map (fun m => (m.contacts, m.contact_id))
      = some (st'.contacts, st'.contact_id) := by
  rw [runLines_append_eq] at h
  cases hm : runLines env L op (initState env) lines with
  | none => rw [hm] at h; exact Option.noConfusion h
  | some m =>
    rw [hm] at h
    obtain ⟨a, b⟩ := runLines_nonEnd_pres extra m st' hextra h
    simp [a, b]

def c8wState : PState :=
  { contacts := [(0, [(strL "Last Name", strL "A"), (strL "First Name", strL "B")])],
    contact_id := 1,
    stdCount := zeroCounts specEnv.std, custCount := zeroCounts specEnv.cust,
    socCount := zeroCounts specEnv.soc,
    listening := true,
    key_previous := strL "N:", value_previous := strL "Name",
    last_symbol := [], contact := [(strL "Last Name", strL "C"), (strL "First Name", strL "D")] }

theorem C8_unterminated_record_discarded_witness :
    ((strL "END:").isPrefixOf (strL "N:C;D;;;\n") = false) ∧
      (runLines specEnv [] (strL "|") (initState specEnv) [strL "N:A;B;;;\n", strL "END:V\n"]).map
          (fun m => (m.contacts, m.contact_id))
        = some (c8wState.contacts, c8wState.contact_id) := by
  exact ⟨by decide,
    C8_unterminated_record_discarded specEnv [] (strL "|")
      [strL "N:A;B;;;\n", strL "END:V\n"] [strL "N:C;D;;;\n"] c8wState
      (by intro l hl; simp at hl; subst hl; decide) (by decide)⟩

/-! ### Claim C4: the tag filter -/

theorem endBlock_eval (env : FieldEnv) (st : PState) (L : List Str) (op : Str) (tstr : Str)
    (hlen : 0 < L.length)
    (hcat : dget env.std (strL "CATEGORIES") = some (strL "Tags"))
    (hTags : dget st.contact (strL "Tags") = some tstr) :
    endBlock env L op st
      = if op = strL "&" then
          (if (L.all fun t => (splitChar ',' tstr).contains t) = false then
            some (Sum.inl { st with listening := false })
          else some (Sum.inl (addContact st)))
        else if op = strL "|" then
          (if (L.any fun t => (splitChar ',' tstr).contains t) = false then
            some (Sum.inl { st with listening := false })
          else some (Sum.inl (addContact st)))
        else some (Sum.inr st) := by
  simp only [endBlock, if_pos hlen, hTags, hcat]
  rfl

/-- Claim C4: with a contact that carries a tags value, an empty
requested set accepts; otherwise, splitting the tags value on `,`, the
`&` operator accepts exactly when every requested tag is present and
the `|` operator exactly when at least one is, with plain (case
sensitive, untrimmed) string comparison. -/
theorem C4_tag_filter (env : FieldEnv) (st : PState) (L : List Str) (tstr : Str)
    (hcat : dget env.std (strL "CATEGORIES") = some (strL "Tags"))
    (hTags : dget st.contact (strL "Tags") = some tstr) :
    (endBlock env L (strL "&") st = some (Sum.inl (addContact st))
        ↔ (L = [] ∨ ∀ t ∈ L, t ∈ splitChar ',' tstr))
    ∧ (endBlock env L (strL "|") st = some (Sum.inl (addContact st))
        ↔ (L = [] ∨ ∃ t ∈ L, t ∈ splitChar ',' tstr)) := by
  have hne : ∀ s : PState,
      (some (Sum.inl ({ s with listening := false } : PState)) : Option (Sum PState PState))
        ≠ some (Sum.inl (addContact s)) := by
    intro s hco
    injection hco with hco
    injection hco with hco
    have hci := congrArg PState.contact_id hco
    simp [addContact] at hci
  by_cases hL : L = []
  · subst hL
    simp [endBlock]
  · have hlen : 0 < L.length := List.length_pos.mpr hL
    rw [endBlock_eval env st L (strL "&") tstr hlen hcat hTags,
        endBlock_eval env st L (strL "|") tstr hlen hcat hTags]
    rw [if_pos rfl, if_neg (show ¬(strL "|" = strL "&") by decide), if_pos rfl]
    constructor
    · rcases hall : L.all (fun t => (splitChar ',' tstr).contains t) with _ | _
      · rw [if_pos rfl]
        simp only [hL, false_or]
        constructor
        · intro hco
          exact absurd hco (hne st)
        · intro hmem
          have htr : L.all (fun t => (splitChar ',' tstr).contains t) = true :=
            List.all_eq_true.mpr (fun t ht => List.elem_iff.mpr (hmem t ht))
          rw [hall] at htr
          exact Bool.noConfusion htr
      · rw [if_neg (show ¬(true = false) from fun hc => Bool.noConfusion hc)]
        simp only [hL, false_or]
        constructor
        · intro _ t ht
          exact List.elem_iff.mp (List.all_eq_true.mp hall t ht)
        · intro _
          trivial
    · rcases hany : L.any (fun t => (splitChar ',' tstr).contains t) with _ | _
      · rw [if_pos rfl]
        simp only [hL, false_or]
        constructor
        · intro hco
          exact absurd hco (hne st)
        · intro hmem
          obtain ⟨t, ht, hmm⟩ := hmem
          have htr : L.any (fun t => (splitChar ',' tstr).contains t) = true :=
            List.any_eq_true.mpr ⟨t, ht, List.elem_iff.mpr hmm⟩
          rw [hany] at htr
          exact Bool.noConfusion htr
      · rw [if_neg (show ¬(true = false) from fun hc => Bool.noConfusion hc)]
        simp only [hL, false_or]
        constructor
        · intro _
          obtain ⟨t, ht, hmm⟩ := List.any_eq_true.mp hany
          exact ⟨t, ht, List.elem_iff.mp hmm⟩
        · intro _
          trivial

theorem C4_tag_filter_witness :
    dget specEnv.std (strL "CATEGORIES") = some (strL "Tags") ∧
      (endBlock specEnv [strL "B", strL "D"] (strL "|")
          { initState specEnv with listening := true, contact := [(strL "Tags", strL "A,B,C")] }
        = some (Sum.inl (addContact
            { initState specEnv with listening := true, contact := [(strL "Tags", strL "A,B,C")] }))) ∧
      ¬ (endBlock specEnv [strL "B", strL "D"] (strL "&")
          { initState specEnv with listening := true, contact := [(strL "Tags", strL "A,B,C")] }
        = some (Sum.inl (addContact
            { initState specEnv with listening := true, contact := [(strL "Tags", strL "A,B,C")] }))) := by
  refine ⟨by decide, ?_, ?_⟩
  · exact (C4_tag_filter specEnv
      { initState specEnv with listening := true, contact := [(strL "Tags", strL "A,B,C")] }
      [strL "B", strL "D"] (strL "A,B,C") (by decide) (by decide)).2.mpr
      (Or.inr ⟨strL "B", by decide, by decide⟩)
  · intro hc
    have hall := (C4_tag_filter specEnv
      { initState specEnv with listening := true, contact := [(strL "Tags", strL "A,B,C")] }
      [strL "B", strL "D"] (strL "A,B,C") (by decide) (by decide)).1.mp hc
    rcases hall with h1 | h1
    · exact List.noConfusion h1
    · have hd := h1 (strL "D") (by decide)
      revert hd
      decide

/-! ### Claim C2: line classification is not mutually exclusive -/

def c2Line : Str := strL "NOTE:see X-CUSTOM Gender-=+=-hello\n"

def c2Lines : List Str := [strL "N:Doe;John;;;\n", c2Line, strL "END:VCARD\n"]

/-- Claim C2 counterexample: one physical line satisfies the
standard-field guard and the custom-field guard at the same time, and a
run over a record containing it stores both a `Note` entry and a
`Gender` entry from that single line — the line is handled by two
branches, not by exactly one classification rule. -/
theorem C2_single_branch_counterexample :
    stdGuard specEnv c2Line = true ∧ custGuard specEnv c2Line = true ∧
      (runLines specEnv [] (strL "|") (initState specEnv) c2Lines).map
          (fun st => st.contacts.map (fun p => (dget p.2 (strL "Note"), dget p.2 (strL "Gender"))))
        = some [(some (strL "see X-CUSTOM Gender-=+=-hello"), some (strL "hello"))] := by
  decide

/-- Claim C2 (amended): the field and continuation branches are tried
independently in program order and a line can be processed by several
of them; a line that satisfies only the standard-field guard (it is not
a record-start line, matches no custom or social guard, and does not
begin with a space) is processed by the standard-field branch alone. -/
theorem C2_first_matching_branch (env : FieldEnv) (st : PState) (line : Str)
    (hlst : st.listening = true)
    (hn : (strL "N:").isPrefixOf line = false)
    (hcust : custGuard env line = false)
    (hsoc : socGuard env line = false)
    (hne : line ≠ [])
    (hsp : ∀ c, line.head? = some c → c ≠ ' ') :
    listenPart env st line = stdBlock env st line := by
  have hnb : nameBlock st line = some st := by
    simp only [nameBlock, hn, Bool.false_eq_true, if_false]
  have hcont : ∀ s : PState, contBlock env s line = some s := by
    intro s
    simp only [contBlock]
    split
    · cases hhead : line.head? with
      | none => exact absurd (List.head?_eq_none_iff.mp hhead) hne
      | some c =>
        simp [hsp c hhead]
    · rfl
  simp only [listenPart, hlst, if_true, hnb]
  cases hsb : stdBlock env st line with
  | none => rfl
  | some s2 =>
    have hcb : custBlock env s2 line = some s2 := by
      simp only [custBlock, hcust, Bool.false_eq_true, if_false]
    have hscb : socBlock env s2 line = some s2 := by
      simp only [socBlock, hsoc, Bool.false_eq_true, if_false]
    simp only [hcb, hscb, hcont s2]

def c2wLine : Str := strL "BDAY:19900615\n"

theorem C2_first_matching_branch_witness :
    custGuard specEnv c2wLine = false ∧ socGuard specEnv c2wLine = false ∧
      listenPart specEnv (startRecord specEnv (initState specEnv)) c2wLine
        = stdBlock specEnv (startRecord specEnv (initState specEnv)) c2wLine := by
  refine ⟨by decide, by decide, ?_⟩
  exact C2_first_matching_branch specEnv (startRecord specEnv (initState specEnv)) c2wLine
    (by decide) (by decide) (by decide) (by decide) (by decide)
    (by intro c hc; injection hc with hc; subst hc; decide)

/-! ### Claim C3: note folding across an escaped line break -/

def c3Lines : List Str :=
  [strL "N:Doe;John;;;\n", strL "NOTE:Hello \\\n", strL " n world\n", strL "END:VCARD\n"]

/-- Claim C3 counterexample: for the primary note line `NOTE:Hello \`
followed by the continuation ` n world`, the assembled note is not the
claimed `"Hello \nworld"`: the code replaces only the leading `n` (line
434: `line = '\n'+line[1:]` keeps the following space). -/
theorem C3_note_fold_counterexample :
    (runLines specEnv [] (strL "|") (initState specEnv) c3Lines).map
        (fun st => st.contacts.map (fun p => dget p.2 (strL "Note")))
      ≠ some [some (strL "Hello \nworld")] := by
  decide

/-- Claim C3 (amended): the assembler replaces only the leading `n` of
the continuation (keeping the character after it) and prepends a real
line break, so `NOTE:Hello \` followed by continuation ` n world`
recombines to exactly `"Hello \n world"` — one real line break, the
space after it retained, and no literal backslash-n text. -/
theorem C3_note_fold_amended :
    (runLines specEnv [] (strL "|") (initState specEnv) c3Lines).map
        (fun st => st.contacts.map (fun p => dget p.2 (strL "Note")))
      = some [some (strL "Hello \n world")] := by
  decide

/-! ### Claim C9: birthday and photo decoding are total -/

/-- Claim C9: for any raw value `v`, however malformed (empty or shorter
than the expected shape included), processing a `BDAY:` or a `PHOTO:`
line through the standard-field branch succeeds: the slicing/splitting
decodings are total and no exception is raised. -/
theorem C9_decode_totality (st : PState) (v : Str)
    (hb : dget st.stdCount (strL "BDAY") = some 0)
    (hp : dget st.stdCount (strL "PHOTO") = some 0) :
    (stdBlock specEnv st (strL "BDAY:" ++ v)).isSome = true
    ∧ (stdBlock specEnv st (strL "PHOTO:" ++ v)).isSome = true := by
  constructor
  · have hguard : stdGuard specEnv (strL "BDAY:" ++ v) = true := by
      apply List.any_eq_true.mpr
      refine ⟨(strL "BDAY", strL "Birthday"), by decide, ?_⟩
      show (strL "BDAY").isPrefixOf (strL "BDAY" ++ (':' :: v)) = true
      exact isPrefixOf_append_self _ _
    have hkey : stdKeyOf (strL "BDAY:" ++ v) = strL "BDAY" := rfl
    simp only [stdBlock, hguard, if_true, hkey, hb]
    rfl
  · have hguard : stdGuard specEnv (strL "PHOTO:" ++ v) = true := by
      apply List.any_eq_true.mpr
      refine ⟨(strL "PHOTO", strL "Picture"), by decide, ?_⟩
      show (strL "PHOTO").isPrefixOf (strL "PHOTO" ++ (':' :: v)) = true
      exact isPrefixOf_append_self _ _
    have hkey : stdKeyOf (strL "PHOTO:" ++ v) = strL "PHOTO" := rfl
    simp only [stdBlock, hguard, if_true, hkey, hp]
    rfl

theorem C9_decode_totality_witness :
    dget (startRecord specEnv (initState specEnv)).stdCount (strL "BDAY") = some 0 ∧
      (stdBlock specEnv (startRecord specEnv (initState specEnv)) (strL "BDAY:" ++ strL "x")).isSome
          = true ∧
      (stdBlock specEnv (startRecord specEnv (initState specEnv)) (strL "PHOTO:" ++ [])).isSome
          = true := by
  refine ⟨by decide, ?_, ?_⟩
  · exact (C9_decode_totality (startRecord specEnv (initState specEnv)) (strL "x")
      (by decide) (by decide)).1
  · exact (C9_decode_totality (startRecord specEnv (initState specEnv)) []
      (by decide) (by decide)).2

/-! ### Claim C1: duplicated-field disambiguation -/

def c1Lines : List Str :=
  [strL "N:Doe;John;;;\n", strL "EMAIL:a@x\n", strL "EMAIL:b@x\n", strL "END:VCARD\n"]

/-- Claim C1 counterexample: after a record in which the raw key `EMAIL`
occurs twice, the finished contact stores the two values under `Email_1`
and `Email_2` and has NO entry under the bare canonical name `Email`:
the bare name does not hold the last encountered value, and the last
value is archived under `_2`, not left bare. -/
theorem C1_bare_name_counterexample :
    (runLines specEnv [] (strL "|") (initState specEnv) c1Lines).map
        (fun st => st.contacts.map (fun p => p.2))
      = some [[(strL "Last Name", strL "Doe"), (strL "First Name", strL "John"),
               (strL "Email_1", strL "a@x"), (strL "Email_2", strL "b@x")]]
    ∧ dget [(strL "Last Name", strL "Doe"), (strL "First Name", strL "John"),
            (strL "Email_1", strL "a@x"), (strL "Email_2", strL "b@x")] (strL "Email") = none := by
  decide

/-- Value of a decimal digit character. -/
def digitVal (c : Char) : Nat := c.toNat - 48

/-- Numeric reading of a digit string, used to invert `natToStr`. -/
def strToNat (s : Str) : Nat := s.foldl (fun a c => a * 10 + digitVal c) 0

theorem strToNat_append_digit (s : Str) (c : Char) :
    strToNat (s ++ [c]) = strToNat s * 10 + digitVal c := by
  simp [strToNat, List.foldl_append]

theorem digitVal_digitChar : ∀ n, n < 10 → digitVal (Nat.digitChar n) = n := by decide

theorem strToNat_natDigits : ∀ (f n : Nat), 0 < n → n < 10 ^ f → strToNat (natDigits f n) = n := by
  intro f
  induction f with
  | zero => intro n h1 h2; omega
  | succ f ih =>
    intro n h1 h2
    simp only [natDigits]
    by_cases hn : n < 10
    · rw [if_pos hn]
      show strToNat ([] ++ [Nat.digitChar n]) = n
      rw [strToNat_append_digit]
      simp [strToNat, digitVal_digitChar n hn]
    · rw [if_neg hn]
      rw [strToNat_append_digit]
      have hdiv : 0 < n / 10 := by omega
      have hlt : n / 10 < 10 ^ f := by
        rw [Nat.div_lt_iff_lt_mul (by omega)]
        calc n < 10 ^ (f + 1) := h2
          _ = 10 ^ f * 10 := by rw [pow_succ]
      rw [ih (n / 10) hdiv hlt, digitVal_digitChar (n % 10) (by omega)]
      omega

theorem natToStr_inj (m n : Nat) (hm : 0 < m) (hn : 0 < n) (h : natToStr m = natToStr n) :
    m = n := by
  have hpow : ∀ k : Nat, k < 10 ^ (k + 1) := by
    intro k
    calc k < 2 ^ k := Nat.lt_two_pow k
      _ ≤ 2 ^ (k + 1) := Nat.pow_le_pow_right (by omega) (by omega)
      _ ≤ 10 ^ (k + 1) := Nat.pow_le_pow_left (by omega) _
  have h2 := congrArg strToNat h
  rw [natToStr, natToStr, strToNat_natDigits (m + 1) m hm (hpow m),
      strToNat_natDigits (n + 1) n hn (hpow n)] at h2
  exact h2

theorem sufKey_inj (v : Str) (i j : Nat) (hi : 0 < i) (hj : 0 < j)
    (h : v ++ '_' :: natToStr i = v ++ '_' :: natToStr j) : i = j := by
  have h1 := List.append_cancel_left h
  injection h1 with _ h2
  exact natToStr_inj i j hi hj h2

theorem ne_sufKey (v : Str) (i : Nat) : v ≠ v ++ '_' :: natToStr i := by
  intro h
  have hlen := congrArg List.length h
  simp [List.length_append] at hlen

theorem dget_append_left {κ α : Type} [DecidableEq κ] {a : List (κ × α)} (b : List (κ × α))
    (k : κ) (h : dget a k = none) : dget (a ++ b) k = dget b k := by
  induction a with
  | nil => rfl
  | cons p t ih =>
    obtain ⟨x, y⟩ := p
    simp only [dget] at h
    simp only [List.cons_append, dget]
    by_cases hxk : x = k
    · rw [if_pos hxk] at h; exact Option.noConfusion h
    · rw [if_neg hxk] at h
      rw [if_neg hxk]
      exact ih h

theorem dget_singleton_ne {κ α : Type} [DecidableEq κ] (x k : κ) (y : α) (h : x ≠ k) :
    dget [(x, y)] k = none := by
  simp only [dget]
  rw [if_neg h]

theorem dpop_append_last {κ α : Type} [DecidableEq κ] (a : List (κ × α)) (k : κ) (v : α)
    (h : dget a k = none) : dpop (a ++ [(k, v)]) k = some (v, a) := by
  induction a with
  | nil => simp [dpop]
  | cons p t ih =>
    obtain ⟨x, y⟩ := p
    simp only [dget] at h
    by_cases hxk : x = k
    · rw [if_pos hxk] at h; exact Option.noConfusion h
    · rw [if_neg hxk] at h
      simp only [List.cons_append, dpop]
      rw [if_neg hxk]
      have hrec : dpop (t.append [(k, v)]) k = some (v, t) := ih h
      rw [hrec]

/-- Iterated effect, on one canonical name, of `k` successive
occurrences of the same raw key: each occurrence increments the count
and performs exactly the store of lines 342-346 and 379 (also 392-396
and 398, 408-412 and 416) — `disamb` followed by the keyed store. -/
def occRun (value : Str) : Dict → Nat → List Str → Option Dict
  | contact, _, [] => some contact
  | contact, c, d :: rest =>
    match disamb contact value (c + 1) with
    | none => none
    | some (c1, v1) => occRun value (dset c1 v1 d) (c + 1) rest

/-- The suffixed entries `value_i, value_(i+1), …` paired with the data
values, in encounter order. -/
def sufPairs (value : Str) : Nat → List Str → Dict
  | _, [] => []
  | i, d :: rest => (value ++ '_' :: natToStr i, d) :: sufPairs value (i + 1) rest

theorem dget_sufPairs_bare (v : Str) : ∀ (ds : List Str) (i : Nat),
    dget (sufPairs v i ds) v = none := by
  intro ds
  induction ds with
  | nil => intro i; rfl
  | cons d rest ih =>
    intro i
    simp only [sufPairs, dget]
    rw [if_neg (fun hc => ne_sufKey v i hc.symm)]
    exact ih (i + 1)

theorem occRun_tail (v : Str) : ∀ (rest : List Str) (D : Dict) (i : Nat), 2 ≤ i →
    (∀ j, i < j → j ≤ i + rest.length → dget D (v ++ '_' :: natToStr j) = none) →
    occRun v D i rest = some (D ++ sufPairs v (i + 1) rest) := by
  intro rest
  induction rest with
  | nil =>
    intro D i _ _
    simp [occRun, sufPairs]
  | cons d rs ih =>
    intro D i hi hfresh
    have hd : disamb D v (i + 1) = some (D, v ++ '_' :: natToStr (i + 1)) := by
      simp only [disamb]
      rw [if_pos (show i + 1 > 1 by omega), if_neg (show ¬(i + 1 = 2) by omega)]
    have hset : dset D (v ++ '_' :: natToStr (i + 1)) d
        = D ++ [(v ++ '_' :: natToStr (i + 1), d)] :=
      dset_fresh _ _ _ (hfresh (i + 1) (by omega) (by simp))
    simp only [occRun, hd, hset]
    have hfresh' : ∀ j, i + 1 < j → j ≤ (i + 1) + rs.length →
        dget (D ++ [(v ++ '_' :: natToStr (i + 1), d)]) (v ++ '_' :: natToStr j) = none := by
      intro j hj1 hj2
      rw [dget_append_left _ _ (hfresh j (by omega) (by simp at hj2 ⊢; omega))]
      exact dget_singleton_ne _ _ _
        (fun hc => absurd (sufKey_inj v (i + 1) j (by omega) (by omega) hc) (by omega))
    rw [ih (D ++ [(v ++ '_' :: natToStr (i + 1), d)]) (i + 1) (by omega) hfresh']
    simp [sufPairs, List.append_assoc]

/-- Claim C1 (amended): when a raw key occurs `k ≥ 2` times in one
record, the finished mapping holds exactly `k` entries for that
canonical name, all suffixed: the `i`-th encountered value is stored
under `name_i` for `i = 1 … k`, in encounter order, and no entry
remains under the bare canonical name — the bare entry is archived as
`_1` at the second occurrence and the last value lives under `_k`. -/
theorem C1_suffixed_archive (v : Str) (d0 : Dict) (ds : List Str)
    (hk : 2 ≤ ds.length)
    (hbare : dget d0 v = none)
    (hfresh : ∀ i, 1 ≤ i → i ≤ ds.length → dget d0 (v ++ '_' :: natToStr i) = none) :
    occRun v d0 0 ds = some (d0 ++ sufPairs v 1 ds)
    ∧ dget (d0 ++ sufPairs v 1 ds) v = none := by
  constructor
  · rcases ds with _ | ⟨d1, ds'⟩
    · simp at hk
    rcases ds' with _ | ⟨d2, rest⟩
    · simp at hk
    have hlen : (d1 :: d2 :: rest).length = rest.length + 2 := by simp
    have h1 : disamb d0 v (0 + 1) = some (d0, v) := rfl
    have hset1 : dset d0 v d1 = d0 ++ [(v, d1)] := dset_fresh _ _ _ hbare
    have h2 : disamb (d0 ++ [(v, d1)]) v (1 + 1)
        = some (d0 ++ [(v ++ '_' :: natToStr 1, d1)], v ++ '_' :: natToStr 2) := by
      simp only [disamb]
      rw [if_pos (show 1 + 1 > 1 by omega), if_pos (show True from trivial),
          dpop_append_last d0 v d1 hbare]
      have harch : strL "_1" = '_' :: natToStr 1 := rfl
      rw [harch]
      show some (dset d0 (v ++ '_' :: natToStr 1) d1, v ++ '_' :: natToStr (1 + 1))
          = some (d0 ++ [(v ++ '_' :: natToStr 1, d1)], v ++ '_' :: natToStr 2)
      rw [dset_fresh _ _ _ (hfresh 1 (by omega) (by omega))]
    have hset2 : dset (d0 ++ [(v ++ '_' :: natToStr 1, d1)]) (v ++ '_' :: natToStr 2) d2
        = d0 ++ [(v ++ '_' :: natToStr 1, d1), (v ++ '_' :: natToStr 2, d2)] := by
      rw [dset_fresh]
      · simp
      · rw [dget_append_left _ _ (hfresh 2 (by omega) (by omega))]
        exact dget_singleton_ne _ _ _
          (fun hc => absurd (sufKey_inj v 1 2 (by omega) (by omega) hc) (by omega))
    have hfresh3 : ∀ j, 2 < j → j ≤ 2 + rest.length →
        dget (d0 ++ [(v ++ '_' :: natToStr 1, d1), (v ++ '_' :: natToStr 2, d2)])
          (v ++ '_' :: natToStr j) = none := by
      intro j hj1 hj2
      rw [dget_append_left _ _ (hfresh j (by omega) (by omega))]
      simp only [dget]
      rw [if_neg (fun hc => absurd (sufKey_inj v 1 j (by omega) (by omega) hc) (by omega)),
          if_neg (fun hc => absurd (sufKey_inj v 2 j (by omega) (by omega) hc) (by omega))]
    simp only [occRun, h1, hset1, h2, hset2]
    rw [occRun_tail v rest _ 2 (by omega) hfresh3]
    simp [sufPairs, List.append_assoc]
  · rw [dget_append_left _ _ hbare]
    exact dget_sufPairs_bare v ds 1

theorem C1_suffixed_archive_witness :
    occRun (strL "Email") [] 0 [strL "a@x", strL "b@x", strL "c@x"]
        = some ([] ++ sufPairs (strL "Email") 1 [strL "a@x", strL "b@x", strL "c@x"])
    ∧ dget ([] ++ sufPairs (strL "Email") 1 [strL "a@x", strL "b@x", strL "c@x"])
        (strL "Email") = none := by
  exact C1_suffixed_archive (strL "Email") [] [strL "a@x", strL "b@x", strL "c@x"]
    (by decide) (by rfl) (fun i h1 h2 => rfl)
